import Mathlib

/-!
Verification of the duo_uet configuration store and its field-level envelope
encryption, as a shallow embedding of the Go sources.

Go strings are byte sequences; the crypto layer models them as `List Nat`
with every element below 256.  The config layer models Go strings as Lean
`String` (those strings are only compared for equality and emptiness).

The Go code calls two external libraries whose internals are not part of
this repository: `encoding/base64` (modelled here as real RFC 4648 standard
base64 with padding) and `crypto/cipher`'s AES-256-GCM AEAD (modelled as an
idealized authenticated stream cipher: the ciphertext is the plaintext
shifted bytewise by a key/nonce keystream, followed by a 16-byte tag
computed from the key, the nonce and the ciphertext; opening verifies the
tag and inverts the shift).  Everything else is translated from the
repository sources (internal/crypto/crypto.go and internal/config/config.go).
-/

/-- Bytes of a Go string. -/
def Bytes : Type := List Nat

deriving instance DecidableEq, Repr, Inhabited for Bytes

deriving instance DecidableEq for Except

instance : Append Bytes := ⟨fun a b => List.append a b⟩

/-- All elements are genuine bytes (below 256). -/
def validBytes (l : List Nat) : Bool := l.all (fun x => x < 256)

/-- Base64 alphabet: value of sextet `n` as an ASCII code. -/
def b64char (n : Nat) : Nat :=
  if n < 26 then 65 + n
  else if n < 52 then 97 + (n - 26)
  else if n < 62 then 48 + (n - 52)
  else if n = 62 then 43
  else 47

/-- Inverse of the base64 alphabet; `none` on a character outside it. -/
def b64charDec (c : Nat) : Option Nat :=
  if 65 ≤ c ∧ c ≤ 90 then some (c - 65)
  else if 97 ≤ c ∧ c ≤ 122 then some (c - 97 + 26)
  else if 48 ≤ c ∧ c ≤ 57 then some (c - 48 + 52)
  else if c = 43 then some 62
  else if c = 47 then some 63
  else none

/-- RFC 4648 standard base64 encoding of a byte list (61 is the pad char). -/
def b64encode : List Nat → List Nat
  | [] => []
  | [a] => [b64char (a / 4), b64char (a % 4 * 16), 61, 61]
  | [a, b] => [b64char (a / 4), b64char (a % 4 * 16 + b / 16), b64char (b % 16 * 4), 61]
  | a :: b :: c :: rest =>
    b64char (a / 4) :: b64char (a % 4 * 16 + b / 16) ::
    b64char (b % 16 * 4 + c / 64) :: b64char (c % 64) :: b64encode rest

/-- Decoding of the final base64 quadruple, where padding (61) may occur. -/
def b64chunkEnd (c1 c2 c3 c4 : Nat) : Option (List Nat) :=
  match b64charDec c1, b64charDec c2 with
  | some s1, some s2 =>
    if c3 = 61 then
      if c4 = 61 ∧ s2 % 16 = 0 then some [s1 * 4 + s2 / 16] else none
    else
      match b64charDec c3 with
      | some s3 =>
        if c4 = 61 then
          if s3 % 4 = 0 then some [s1 * 4 + s2 / 16, s2 % 16 * 16 + s3 / 4] else none
        else
          match b64charDec c4 with
          | some s4 => some [s1 * 4 + s2 / 16, s2 % 16 * 16 + s3 / 4, s3 % 4 * 64 + s4]
          | none => none
      | none => none
  | _, _ => none

/-- RFC 4648 standard base64 decoding; `none` on malformed input
(a length that is no multiple of four, a character outside the alphabet,
padding anywhere but the final quadruple, or nonzero discarded bits). -/
def b64decode : List Nat → Option (List Nat)
  | [] => some []
  | c1 :: c2 :: c3 :: c4 :: rest =>
    if rest = [] then b64chunkEnd c1 c2 c3 c4
    else
      match b64charDec c1, b64charDec c2, b64charDec c3, b64charDec c4, b64decode rest with
      | some s1, some s2, some s3, some s4, some bs =>
        some ((s1 * 4 + s2 / 16) :: (s2 % 16 * 16 + s3 / 4) :: (s3 % 4 * 64 + s4) :: bs)
      | _, _, _, _, _ => none
  | _ => none

/-- Mixing hash used by the idealized AEAD model. -/
def keyHash (key : List Nat) : Nat := key.foldl (fun a b => a * 257 + b + 1) 3

/-- Keystream of the idealized AEAD, a function of key, nonce and position. -/
def gcmKS (key nonce : List Nat) (i : Nat) : Nat :=
  (keyHash key + keyHash nonce * 101 + i * 157) % 256

/-- The 16-byte authentication tag of the idealized AEAD. -/
def gcmTag (key nonce ct : List Nat) : List Nat :=
  (List.range 16).map (fun i => (keyHash key * 5 + keyHash nonce * 7 + keyHash ct * 11 + i) % 256)

/-- Bytewise keystream shift (the encryption direction). -/
def sealBytes (f : Nat → Nat) : Nat → List Nat → List Nat
  | _, [] => []
  | i, p :: rest => (p + f i) % 256 :: sealBytes f (i + 1) rest

/-- Bytewise keystream unshift (the decryption direction). -/
def openBytes (f : Nat → Nat) : Nat → List Nat → List Nat
  | _, [] => []
  | i, c :: rest => (c + 256 - f i % 256) % 256 :: openBytes f (i + 1) rest

/-- Idealized model of Go `gcm.Seal nil nonce plaintext nil`:
ciphertext followed by the 16-byte tag. -/
def gcmSeal (key nonce pt : List Nat) : List Nat :=
  sealBytes (gcmKS key nonce) 0 pt ++ gcmTag key nonce (sealBytes (gcmKS key nonce) 0 pt)

/-- Idealized model of Go `gcm.Open nil nonce data nil`: split off the tag,
verify it, and invert the keystream shift; `none` when verification fails. -/
def gcmOpen (key nonce data : List Nat) : Option (List Nat) :=
  if data.length < 16 then none
  else
    if data.drop (data.length - 16) = gcmTag key nonce (data.take (data.length - 16)) then
      some (openBytes (gcmKS key nonce) 0 (data.take (data.length - 16)))
    else none

/-- The bytes of the Go constant EncryptedFieldPrefix, the 15 ASCII bytes
of the envelope marker text (E N C bracket A E S 2 5 6 underscore G C M comma). -/
def encMarker : List Nat := [69, 78, 67, 91, 65, 69, 83, 50, 53, 54, 95, 71, 67, 77, 44]

/-- Drops a leading literal; `none` when the literal is not there.
Models Go `strings.HasPrefix` plus the stripping the regex match performs. -/
def dropLead : List Nat → List Nat → Option (List Nat)
  | [], s => some s
  | _ :: _, [] => none
  | p :: ps, c :: cs => if c = p then dropLead ps cs else none

/-- IsEncrypted from crypto.go: the field starts with the envelope marker. -/
def IsEncrypted (s : List Nat) : Bool := (dropLead encMarker s).isSome

/-- Splits at the first occurrence of `stop`: the segment before it and the
remainder after it; `none` when `stop` does not occur. -/
def splitUntil (stop : Nat) : List Nat → Option (List Nat × List Nat)
  | [] => none
  | c :: rest =>
    if c = stop then some ([], rest)
    else
      match splitUntil stop rest with
      | some (a, b) => some (c :: a, b)
      | none => none

/-- One anchored attempt of the envelope regex
(marker, then a nonempty comma-free group, a comma, a nonempty
bracket-free group and a closing bracket; trailing bytes are ignored). -/
def matchAt (s : List Nat) : Option (List Nat × List Nat) :=
  match dropLead encMarker s with
  | none => none
  | some rest =>
    match splitUntil 44 rest with
    | none => none
    | some (g1, rest2) =>
      if g1 = [] then none
      else
        match splitUntil 93 rest2 with
        | none => none
        | some (g2, _) => if g2 = [] then none else some (g1, g2)

/-- Leftmost match of the envelope regex over the whole input, the search
behaviour of Go `regexp.FindStringSubmatch` for this pattern. -/
def findMatch : List Nat → Option (List Nat × List Nat)
  | [] => none
  | c :: rest =>
    match matchAt (c :: rest) with
    | some r => some r
    | none => findMatch rest

/-- CryptoManager.Encrypt from crypto.go, with the randomly drawn nonce made
an explicit argument: empty plaintext is returned as the empty string,
otherwise the envelope marker, base64 nonce, a comma, base64 of the sealed
bytes and a closing bracket. -/
def Encrypt (key nonce plaintext : List Nat) : List Nat :=
  if plaintext = [] then []
  else encMarker ++ b64encode nonce ++ 44 :: (b64encode (gcmSeal key nonce plaintext) ++ [93])

/-- CryptoManager.Decrypt from crypto.go.  Inputs without the envelope marker
are returned unchanged; otherwise the envelope is parsed, both groups are
base64-decoded and the seal is opened, each failure step reported as an
error (the Go code wraps an underlying error text which is elided here). -/
def Decrypt (key encryptedField : List Nat) : Except String (List Nat) :=
  if IsEncrypted encryptedField = false then .ok encryptedField
  else
    match findMatch encryptedField with
    | none => .error "invalid encrypted field format"
    | some (nB, cB) =>
      match b64decode nB with
      | none => .error "failed to decode nonce"
      | some nonce =>
        match b64decode cB with
        | none => .error "failed to decode ciphertext"
        | some ct =>
          match gcmOpen key nonce ct with
          | none => .error "failed to decrypt"
          | some pt => .ok pt

/-- A YAML map value as seen through Go `map[string]interface{}`:
either a string (a byte list) or some non-string value. -/
inductive Value where
  | str : List Nat → Value
  | other : Value
deriving DecidableEq, Repr

/-- The hard-coded sensitive field names of crypto.go. -/
def sensitiveFields : List String := ["client_secret", "admin_api_secret", "signing_key"]

/-- One entry step of CryptoManager.EncryptSensitiveFields: a sensitive key
whose value is a non-empty string that is not already an envelope gets
encrypted (with the fresh nonce `n`); every other entry is left alone. -/
def encryptEntry (key n : List Nat) (kv : String × Value) : String × Value :=
  if sensitiveFields.contains kv.1 then
    match kv.2 with
    | .str s => if s ≠ [] ∧ IsEncrypted s = false then (kv.1, .str (Encrypt key n s)) else kv
    | .other => kv
  else kv

/-- Walk of the record, drawing nonce `ns i` for the entry at index `i`. -/
def encryptFieldsFrom (key : List Nat) (ns : Nat → List Nat) : Nat → List (String × Value) → List (String × Value)
  | _, [] => []
  | i, kv :: rest => encryptEntry key (ns i) kv :: encryptFieldsFrom key ns (i + 1) rest

/-- CryptoManager.EncryptSensitiveFields from crypto.go over a record
(the Go map is modelled as an association list; the fresh random nonces are
the explicit stream `ns`; the Go error return can only fire on a cipher
construction failure, which cannot happen for the fixed 32-byte key). -/
def EncryptSensitiveFields (key : List Nat) (ns : Nat → List Nat) (data : List (String × Value)) : List (String × Value) :=
  encryptFieldsFrom key ns 0 data

/-- Tenant from config.go. -/
structure Tenant where
  id : String
  name : String
  adminAPIKey : String
  adminAPISecret : String
  apiHostname : String
deriving DecidableEq, Repr

/-- Application from config.go (all fields of the Go struct). -/
structure Application where
  id : String
  tenantID : String
  name : String
  type : String
  isDMP : Bool
  enabled : Bool
  clientID : String
  clientSecret : String
  apiHostname : String
  entityID : String
  acsURL : String
  metadataURL : String
  signingCert : String
  signingKey : String
  idpEntityID : String
  idpSSOURL : String
  idpCertificate : String
  redirectURI : String
  idpDiscoveryURL : String
  idpIssuer : String
  idpAuthorizationEndpoint : String
  idpTokenEndpoint : String
  idpUserInfoEndpoint : String
  idpJWKSEndpoint : String
deriving DecidableEq, Repr

/-- Config from config.go: the two persisted lists (the mutex and the file
path carry no document state and are not modelled). -/
structure Config where
  tenants : List Tenant
  applications : List Application
deriving DecidableEq, Repr

/-- An application with every field empty or false, base for test values. -/
def blankApp : Application :=
  { id := "", tenantID := "", name := "", type := "", isDMP := false, enabled := false
    clientID := "", clientSecret := "", apiHostname := "", entityID := "", acsURL := ""
    metadataURL := "", signingCert := "", signingKey := "", idpEntityID := ""
    idpSSOURL := "", idpCertificate := "", redirectURI := "", idpDiscoveryURL := ""
    idpIssuer := "", idpAuthorizationEndpoint := "", idpTokenEndpoint := ""
    idpUserInfoEndpoint := "", idpJWKSEndpoint := "" }

/-- A single-quote character as a string (used inside error messages). -/
def quoteCh : String := String.mk [Char.ofNat 39]

/-- The valid application types of config.go. -/
def validTypes : List String := ["websdk", "dmp", "saml", "oidc"]

/-- The type-specific block of validateApplication. -/
def validateTypeSpecific (app : Application) : Option String :=
  if app.type = "saml" then
    if app.entityID = "" then some "entity_id is required for SAML applications"
    else if app.acsURL = "" then some "acs_url is required for SAML applications"
    else none
  else if app.type = "oidc" then
    if app.clientID = "" then some "client_id is required for OIDC applications"
    else if app.clientSecret = "" then some "client_secret is required for OIDC applications"
    else if app.redirectURI = "" then some "redirect_uri is required for OIDC applications"
    else none
  else
    if app.clientID = "" then some "client_id is required"
    else if app.clientSecret = "" then some "client_secret is required"
    else none

/-- validateApplication from config.go; `none` is the nil error. -/
def validateApplication (app : Application) : Option String :=
  if app.name = "" then some "application name is required"
  else if app.type = "" then some "application type is required"
  else if validTypes.contains app.type = false then
    some ("invalid application type: " ++ app.type ++ " (must be one of: websdk, dmp, saml, oidc)")
  else
    match validateTypeSpecific app with
    | some e => some e
    | none => if app.apiHostname = "" then some "api_hostname is required" else none

/-- validateTenant from config.go. -/
def validateTenant (t : Tenant) : Option String :=
  if t.name = "" then some "tenant name is required"
  else if t.adminAPIKey = "" then some "admin_api_key is required"
  else if t.adminAPISecret = "" then some "admin_api_secret is required"
  else if t.apiHostname = "" then some "api_hostname is required"
  else none

/-- The legacy IsDMP migration step applied to one record inside LoadConfig:
a record with no explicit type gets one from the legacy boolean. -/
def migrateApp (a : Application) : Application :=
  if a.type = "" then
    if a.isDMP then { a with type := "dmp" } else { a with type := "websdk" }
  else a

/-- The migration loop of LoadConfig over the parsed document (file reading
and YAML parsing themselves are outside the model). -/
def migrateConfig (c : Config) : Config :=
  { c with applications := c.applications.map migrateApp }

/-- Application.GetApplicationType from config.go. -/
def Application.GetApplicationType (a : Application) : String :=
  if a.type ≠ "" then a.type
  else if a.isDMP then "dmp"
  else "websdk"

/-- Replacement step of Config.UpdateApplication: find the first record with
the given id, overwrite it with `u` keeping the original id; `none` when no
record matches. -/
def updateApps (id : String) (u : Application) : List Application → Option (List Application)
  | [] => none
  | a :: rest =>
    if a.id = id then some ({ u with id := id } :: rest)
    else
      match updateApps id u rest with
      | some rest2 => some (a :: rest2)
      | none => none

/-- Removal step of Config.DeleteApplication: erase the first record with
the given id; `none` when no record matches. -/
def deleteApps (id : String) : List Application → Option (List Application)
  | [] => none
  | a :: rest =>
    if a.id = id then some rest
    else
      match deleteApps id rest with
      | some rest2 => some (a :: rest2)
      | none => none

/-- The tenant index search loop of Config.DeleteTenant. -/
def findTenantIdx (id : String) : List Tenant → Option Nat
  | [] => none
  | t :: rest =>
    if t.id = id then some 0
    else (findTenantIdx id rest).map (· + 1)

/-- The application filter loop of Config.DeleteTenant: keep exactly the
applications whose tenant reference differs from the deleted id. -/
def keepApps (id : String) : List Application → List Application
  | [] => []
  | a :: rest => if a.tenantID ≠ id then a :: keepApps id rest else keepApps id rest

/-- The configuration store: the in-memory document plus the parsed content
of the backing file (what the last successful write left there). -/
structure Store where
  config : Config
  file : Config
deriving DecidableEq, Repr

/-- The not-found error text of the application operations. -/
def notFoundApp (id : String) : String :=
  "application with id " ++ quoteCh ++ id ++ quoteCh ++ " not found"

/-- Config.save: marshal the current in-memory document and write it; the
success of the file write is the oracle `writeOk` (yaml.Marshal cannot fail
on these struct types).  On failure the in-memory document stays mutated and
the file keeps its old content. -/
def saveStep (cfg : Config) (oldFile : Config) (writeOk : Bool) : Store × Except String Unit :=
  if writeOk then ({ config := cfg, file := cfg }, .ok ())
  else ({ config := cfg, file := oldFile }, .error "failed to write config file")

/-- The id-generation step of the add operations (the fresh uuid is the
explicit argument). -/
def appWithId (freshId : String) (app0 : Application) : Application :=
  if app0.id = "" then { app0 with id := freshId } else app0

/-- Config.AddApplication: generate an id when absent, validate, reject
duplicates, append, save. -/
def Store.addApplication (s : Store) (freshId : String) (app0 : Application) (writeOk : Bool) : Store × Except String Unit :=
  match validateApplication (appWithId freshId app0) with
  | some e => (s, .error e)
  | none =>
    if s.config.applications.any (fun ex => ex.id = (appWithId freshId app0).id) then
      (s, .error ("application with id " ++ quoteCh ++ (appWithId freshId app0).id ++ quoteCh ++ " already exists"))
    else
      saveStep { s.config with applications := s.config.applications ++ [appWithId freshId app0] } s.file writeOk

/-- Config.UpdateApplication: validate first, then replace the record with
the matching id (keeping that id), then save; not-found otherwise. -/
def Store.updateApplication (s : Store) (id : String) (u : Application) (writeOk : Bool) : Store × Except String Unit :=
  match validateApplication u with
  | some e => (s, .error e)
  | none =>
    match updateApps id u s.config.applications with
    | none => (s, .error (notFoundApp id))
    | some apps => saveStep { s.config with applications := apps } s.file writeOk

/-- Config.DeleteApplication: erase the record with the matching id and
save; not-found otherwise. -/
def Store.deleteApplication (s : Store) (id : String) (writeOk : Bool) : Store × Except String Unit :=
  match deleteApps id s.config.applications with
  | none => (s, .error (notFoundApp id))
  | some apps => saveStep { s.config with applications := apps } s.file writeOk

/-- The id-generation step of AddTenant. -/
def tenantWithId (freshId : String) (t0 : Tenant) : Tenant :=
  if t0.id = "" then { t0 with id := freshId } else t0

/-- Config.AddTenant: generate an id when absent, validate, reject
duplicates, append, save. -/
def Store.addTenant (s : Store) (freshId : String) (t0 : Tenant) (writeOk : Bool) : Store × Except String Unit :=
  match validateTenant (tenantWithId freshId t0) with
  | some e => (s, .error e)
  | none =>
    if s.config.tenants.any (fun ex => ex.id = (tenantWithId freshId t0).id) then
      (s, .error ("tenant with id " ++ quoteCh ++ (tenantWithId freshId t0).id ++ quoteCh ++ " already exists"))
    else
      saveStep { s.config with tenants := s.config.tenants ++ [tenantWithId freshId t0] } s.file writeOk

/-- Config.DeleteTenant: find the tenant, drop every application that
references it, erase the tenant at the found index, save; not-found when
the tenant is absent. -/
def Store.deleteTenant (s : Store) (id : String) (writeOk : Bool) : Store × Except String Unit :=
  match findTenantIdx id s.config.tenants with
  | none => (s, .error ("tenant with id " ++ quoteCh ++ id ++ quoteCh ++ " not found"))
  | some i =>
    saveStep
      { tenants := s.config.tenants.take i ++ s.config.tenants.drop (i + 1)
        applications := keepApps id s.config.applications } s.file writeOk

/-- Modelled from the spec: the tenant record of the encryption-integrated
configuration store (the version of config.go carrying the
`encryption_enabled` flag and a cryptoManager; its source is not in src/,
only its tests are).  The sensitive admin_api_secret is kept as bytes, the
remaining fields are opaque strings. -/
structure STenant where
  id : String
  name : String
  adminAPIKey : String
  apiHostname : String
  adminAPISecret : List Nat
deriving DecidableEq, Repr

/-- Modelled from the spec: the application record of the
encryption-integrated store; client_secret and signing_key are the two
sensitive fields. -/
structure SApp where
  id : String
  name : String
  type : String
  clientID : String
  apiHostname : String
  clientSecret : List Nat
  signingKey : List Nat
deriving DecidableEq, Repr

/-- Modelled from the spec: the persisted document of the
encryption-integrated store, an encryption-enabled flag plus the two lists. -/
structure SecDoc where
  encryptionEnabled : Bool
  tenants : List STenant
  applications : List SApp
deriving DecidableEq, Repr

/-- Modelled from the spec (4.3): encrypt one sensitive field in place,
skipping empty values and values that already are envelopes. -/
def encField (key n s : List Nat) : List Nat :=
  if s ≠ [] ∧ IsEncrypted s = false then Encrypt key n s else s

/-- Modelled from the spec: the save-side walk over the tenants, drawing the
fresh nonce `nt i` for the tenant at index `i`. -/
def saveTenants (key : List Nat) (nt : Nat → List Nat) : Nat → List STenant → List STenant
  | _, [] => []
  | i, t :: rest =>
    { t with adminAPISecret := encField key (nt i) t.adminAPISecret } :: saveTenants key nt (i + 1) rest

/-- Modelled from the spec: the save-side walk over the applications, each
record consuming two fresh nonces. -/
def saveApps (key : List Nat) (na : Nat → List Nat) : Nat → List SApp → List SApp
  | _, [] => []
  | i, a :: rest =>
    { a with clientSecret := encField key (na (2 * i)) a.clientSecret
             signingKey := encField key (na (2 * i + 1)) a.signingKey } :: saveApps key na (i + 1) rest

/-- Modelled from the spec (4.5 save): when the document declares encryption
enabled, every sensitive field is encrypted (already-encrypted values pass
through) before the document is serialized and written; otherwise the
document is written as-is.  The returned document is the parsed content of
the backing file (serialization is injective on these records). -/
def SecDoc.save (d : SecDoc) (key : List Nat) (nt na : Nat → List Nat) : SecDoc :=
  if d.encryptionEnabled then
    { d with tenants := saveTenants key nt 0 d.tenants
             applications := saveApps key na 0 d.applications }
  else d

/-- Modelled from the spec: decrypt the sensitive field of one tenant,
reporting a failure with the field name attached. -/
def decTenant (key : List Nat) (t : STenant) : Except String STenant :=
  match Decrypt key t.adminAPISecret with
  | .ok s => .ok { t with adminAPISecret := s }
  | .error e => .error ("failed to decrypt admin_api_secret: " ++ e)

/-- Modelled from the spec: decrypt the two sensitive fields of one
application, reporting a failure with the field name attached. -/
def decApp (key : List Nat) (a : SApp) : Except String SApp :=
  match Decrypt key a.clientSecret with
  | .error e => .error ("failed to decrypt client_secret: " ++ e)
  | .ok cs =>
    match Decrypt key a.signingKey with
    | .error e => .error ("failed to decrypt signing_key: " ++ e)
    | .ok sk => .ok { a with clientSecret := cs, signingKey := sk }

/-- Modelled from the spec (4.5 load): parse the file content, and when the
document declares encryption enabled decrypt every sensitive field across
every tenant and application, failing with a crypto error when any field
fails to decrypt. -/
def SecDoc.load (f : SecDoc) (key : List Nat) : Except String SecDoc :=
  if f.encryptionEnabled then do
    let ts ← f.tenants.mapM (decTenant key)
    let apps ← f.applications.mapM (decApp key)
    .ok { f with tenants := ts, applications := apps }
  else .ok f

/-- Every sensitive value held in a document, in one list. -/
def SecDoc.sensitiveValues (d : SecDoc) : List (List Nat) :=
  d.tenants.map (fun t => t.adminAPISecret)
    ++ d.applications.map (fun a => a.clientSecret)
    ++ d.applications.map (fun a => a.signingKey)

/-- Concrete fixture: first tenant of the test document. -/
def tenant1 : Tenant :=
  { id := "t1", name := "T1", adminAPIKey := "k1", adminAPISecret := "s1", apiHostname := "h1" }

/-- Concrete fixture: second tenant of the test document. -/
def tenant2 : Tenant :=
  { id := "t2", name := "T2", adminAPIKey := "k2", adminAPISecret := "s2", apiHostname := "h2" }

/-- Concrete fixture: a valid websdk application with a given id and tenant
reference. -/
def appOfTenant (i tid : String) : Application :=
  { blankApp with id := i, tenantID := tid, name := "N", type := "websdk", clientID := "c", clientSecret := "s", apiHostname := "h" }

/-- Concrete fixture: two tenants, two applications of the first and one of
the second. -/
def cexCfg : Config :=
  { tenants := [tenant1, tenant2]
    applications := [appOfTenant "a1" "t1", appOfTenant "a2" "t1", appOfTenant "a3" "t2"] }

/-- Concrete fixture: a store whose file agrees with its document. -/
def cexStore : Store := { config := cexCfg, file := cexCfg }

/-- Concrete fixture: a valid application with its own id and no tenant. -/
def validApp : Application := appOfTenant "a9" ""

/-- Concrete fixture: a valid tenant. -/
def validTenant9 : Tenant :=
  { id := "t9", name := "T9", adminAPIKey := "k", adminAPISecret := "s", apiHostname := "h" }

/-- Concrete fixture: a constant stream of 12-byte nonces. -/
def zeroNonce : Nat → List Nat := fun _ => List.replicate 12 0

/-- Concrete fixture: an application whose stored client secret is an
envelope-shaped plaintext (marker followed by the bytes of x comma y and a
closing bracket). -/
def cexSecApp : SApp :=
  { id := "a", name := "A", type := "websdk", clientID := "c", apiHostname := "h", clientSecret := encMarker ++ [120, 44, 121, 93], signingKey := [] }

/-- Concrete fixture: an encryption-enabled document holding that
application. -/
def cexSecDoc : SecDoc := { encryptionEnabled := true, tenants := [], applications := [cexSecApp] }

/-- Concrete fixture: an encryption-enabled document with ordinary
plaintext secrets. -/
def okSecDoc : SecDoc :=
  { encryptionEnabled := true
    tenants := [{ id := "t", name := "T", adminAPIKey := "k", apiHostname := "h", adminAPISecret := [115, 49] }]
    applications := [{ id := "a", name := "A", type := "websdk", clientID := "c", apiHostname := "h", clientSecret := [115, 50], signingKey := [] }] }

theorem validBytes_iff (l : List Nat) : validBytes l = true ↔ ∀ x ∈ l, x < 256 := by
  simp [validBytes]

theorem validBytes_cons (a : Nat) (l : List Nat) :
    validBytes (a :: l) = true ↔ a < 256 ∧ validBytes l = true := by
  simp [validBytes]

theorem b64charDec_b64char : ∀ n, n < 64 → b64charDec (b64char n) = some n := by decide

theorem b64char_ne (n : Nat) : b64char n ≠ 44 ∧ b64char n ≠ 61 ∧ b64char n ≠ 93 := by
  unfold b64char
  split_ifs <;> omega

theorem b64encode_nil : ∀ l : List Nat, b64encode l = [] ↔ l = []
  | [] => by simp [b64encode]
  | [_] => by simp [b64encode]
  | [_, _] => by simp [b64encode]
  | _ :: _ :: _ :: _ => by simp [b64encode]

theorem mem_b64encode_ne : ∀ l : List Nat, ∀ x ∈ b64encode l, x ≠ 44 ∧ x ≠ 93
  | [], x => by simp [b64encode]
  | [a], x => by
    simp only [b64encode, List.mem_cons, List.not_mem_nil, or_false]
    rintro (rfl | rfl | rfl | rfl) <;>
      first
      | exact ⟨(b64char_ne _).1, (b64char_ne _).2.2⟩
      | exact ⟨by omega, by omega⟩
  | [a, b], x => by
    simp only [b64encode, List.mem_cons, List.not_mem_nil, or_false]
    rintro (rfl | rfl | rfl | rfl) <;>
      first
      | exact ⟨(b64char_ne _).1, (b64char_ne _).2.2⟩
      | exact ⟨by omega, by omega⟩
  | a :: b :: c :: rest, x => by
    simp only [b64encode, List.mem_cons]
    rintro (rfl | rfl | rfl | rfl | hx)
    · exact ⟨(b64char_ne _).1, (b64char_ne _).2.2⟩
    · exact ⟨(b64char_ne _).1, (b64char_ne _).2.2⟩
    · exact ⟨(b64char_ne _).1, (b64char_ne _).2.2⟩
    · exact ⟨(b64char_ne _).1, (b64char_ne _).2.2⟩
    · exact mem_b64encode_ne rest x hx

theorem b64_roundtrip : ∀ l : List Nat, validBytes l = true → b64decode (b64encode l) = some l
  | [], _ => rfl
  | [a], h => by
    have ha : a < 256 := ((validBytes_cons a []).mp h).1
    have d1 : b64charDec (b64char (a / 4)) = some (a / 4) := b64charDec_b64char _ (by omega)
    have d2 : b64charDec (b64char (a % 4 * 16)) = some (a % 4 * 16) :=
      b64charDec_b64char _ (by omega)
    have hz : a % 4 * 16 % 16 = 0 := by omega
    have e1 : a / 4 * 4 + a % 4 * 16 / 16 = a := by omega
    simp only [b64encode, b64decode, if_pos rfl, b64chunkEnd, d1, d2]
    simp [hz]
    omega
  | [a, b], h => by
    have ha : a < 256 := ((validBytes_cons a [b]).mp h).1
    have hb : b < 256 := ((validBytes_cons b []).mp ((validBytes_cons a [b]).mp h).2).1
    have d1 : b64charDec (b64char (a / 4)) = some (a / 4) := b64charDec_b64char _ (by omega)
    have d2 : b64charDec (b64char (a % 4 * 16 + b / 16)) = some (a % 4 * 16 + b / 16) :=
      b64charDec_b64char _ (by omega)
    have d3 : b64charDec (b64char (b % 16 * 4)) = some (b % 16 * 4) :=
      b64charDec_b64char _ (by omega)
    have n3 : ¬ b64char (b % 16 * 4) = 61 := (b64char_ne _).2.1
    have hm : b % 16 * 4 % 4 = 0 := by omega
    have e1 : a / 4 * 4 + (a % 4 * 16 + b / 16) / 16 = a := by omega
    have e2 : (a % 4 * 16 + b / 16) % 16 * 16 + b % 16 * 4 / 4 = b := by omega
    simp only [b64encode, b64decode, if_pos rfl, b64chunkEnd, d1, d2, d3, if_neg n3]
    simp [hm]
    omega
  | a :: b :: c :: rest, h => by
    have ha : a < 256 := ((validBytes_cons _ _).mp h).1
    have h2 := ((validBytes_cons _ _).mp h).2
    have hb : b < 256 := ((validBytes_cons _ _).mp h2).1
    have h3 := ((validBytes_cons _ _).mp h2).2
    have hc : c < 256 := ((validBytes_cons _ _).mp h3).1
    have hrest := ((validBytes_cons _ _).mp h3).2
    have ih := b64_roundtrip rest hrest
    have d1 : b64charDec (b64char (a / 4)) = some (a / 4) := b64charDec_b64char _ (by omega)
    have d2 : b64charDec (b64char (a % 4 * 16 + b / 16)) = some (a % 4 * 16 + b / 16) :=
      b64charDec_b64char _ (by omega)
    have d3 : b64charDec (b64char (b % 16 * 4 + c / 64)) = some (b % 16 * 4 + c / 64) :=
      b64charDec_b64char _ (by omega)
    have d4 : b64charDec (b64char (c % 64)) = some (c % 64) := b64charDec_b64char _ (by omega)
    have e1 : a / 4 * 4 + (a % 4 * 16 + b / 16) / 16 = a := by omega
    have e2 : (a % 4 * 16 + b / 16) % 16 * 16 + (b % 16 * 4 + c / 64) / 4 = b := by omega
    have e3 : (b % 16 * 4 + c / 64) % 4 * 64 + c % 64 = c := by omega
    by_cases hr : rest = []
    · subst hr
      have n3 : ¬ b64char (b % 16 * 4 + c / 64) = 61 := (b64char_ne _).2.1
      have n4 : ¬ b64char (c % 64) = 61 := (b64char_ne _).2.1
      simp only [b64encode, b64decode, if_pos rfl, b64chunkEnd, d1, d2, d3, d4,
        if_neg n3, if_neg n4]
      simp [e1, e2, e3]
    · have henc : ¬ b64encode rest = [] := fun hh => hr ((b64encode_nil rest).mp hh)
      simp only [b64encode, b64decode, if_neg henc, d1, d2, d3, d4, ih]
      rw [e1, e2, e3]

theorem splitUntil_append (stop : Nat) :
    ∀ l r : List Nat, (∀ x ∈ l, x ≠ stop) → splitUntil stop (l ++ stop :: r) = some (l, r)
  | [], r, _ => by simp [splitUntil]
  | c :: l, r, h => by
    have hc : c ≠ stop := h c (by simp)
    have ih := splitUntil_append stop l r (fun x hx => h x (by simp [hx]))
    show splitUntil stop (c :: (l ++ stop :: r)) = some (c :: l, r)
    simp [splitUntil, hc, ih]

theorem dropLead_append : ∀ p r : List Nat, dropLead p (p ++ r) = some r
  | [], r => rfl
  | c :: p, r => by
    show dropLead (c :: p) (c :: (p ++ r)) = some r
    simp [dropLead, dropLead_append p r]

theorem isEncrypted_append (r : List Nat) : IsEncrypted (encMarker ++ r) = true := by
  simp [IsEncrypted, dropLead_append]

theorem findMatch_of_matchAt (s : List Nat) (r : List Nat × List Nat)
    (h : matchAt s = some r) : findMatch s = some r := by
  cases s with
  | nil => simp [matchAt, encMarker, dropLead] at h
  | cons c rest =>
    simp only [findMatch]
    rw [h]

theorem matchAt_env (e1 e2 tail : List Nat) (h1 : e1 ≠ []) (h2 : e2 ≠ [])
    (n1 : ∀ x ∈ e1, x ≠ 44) (n2 : ∀ x ∈ e2, x ≠ 93) :
    matchAt (encMarker ++ (e1 ++ 44 :: (e2 ++ 93 :: tail))) = some (e1, e2) := by
  simp only [matchAt, dropLead_append, splitUntil_append 44 e1 _ n1, if_neg h1,
    splitUntil_append 93 e2 tail n2, if_neg h2]

theorem validBytes_sealBytes (f : Nat → Nat) : ∀ l i, validBytes (sealBytes f i l) = true
  | [], _ => rfl
  | p :: rest, i => by
    rw [sealBytes, validBytes_cons]
    exact ⟨Nat.mod_lt _ (by omega), validBytes_sealBytes f rest (i + 1)⟩

theorem validBytes_gcmTag (key nonce ct : List Nat) : validBytes (gcmTag key nonce ct) = true := by
  rw [validBytes_iff]
  intro x hx
  simp only [gcmTag, List.mem_map, List.mem_range] at hx
  obtain ⟨i, _, rfl⟩ := hx
  exact Nat.mod_lt _ (by omega)

theorem validBytes_append (l r : List Nat) :
    validBytes (l ++ r) = true ↔ validBytes l = true ∧ validBytes r = true := by
  simp [validBytes]

theorem validBytes_gcmSeal (key nonce pt : List Nat) : validBytes (gcmSeal key nonce pt) = true := by
  rw [gcmSeal, validBytes_append]
  exact ⟨validBytes_sealBytes _ _ _, validBytes_gcmTag _ _ _⟩

theorem gcmSeal_ne_nil (key nonce pt : List Nat) : gcmSeal key nonce pt ≠ [] := by
  simp [gcmSeal, gcmTag, List.range_succ]

theorem sealBytes_length (f : Nat → Nat) : ∀ l i, (sealBytes f i l).length = l.length
  | [], _ => rfl
  | _ :: rest, i => by simp [sealBytes, sealBytes_length f rest (i + 1)]

theorem openBytes_sealBytes (f : Nat → Nat) :
    ∀ l i, validBytes l = true → openBytes f i (sealBytes f i l) = l
  | [], _, _ => rfl
  | p :: rest, i, h => by
    have hp : p < 256 := ((validBytes_cons _ _).mp h).1
    have hr := ((validBytes_cons _ _).mp h).2
    simp only [sealBytes, openBytes, openBytes_sealBytes f rest (i + 1) hr]
    congr 1
    omega

theorem gcmOpen_gcmSeal (key nonce pt : List Nat) (h : validBytes pt = true) :
    gcmOpen key nonce (gcmSeal key nonce pt) = some pt := by
  have htag : (gcmTag key nonce (sealBytes (gcmKS key nonce) 0 pt)).length = 16 := by
    simp [gcmTag]
  have hct := sealBytes_length (gcmKS key nonce) pt 0
  have hlen : (gcmSeal key nonce pt).length = pt.length + 16 := by
    simp [gcmSeal, htag, hct]
  have hsub : (gcmSeal key nonce pt).length - 16 = (sealBytes (gcmKS key nonce) 0 pt).length := by
    omega
  rw [gcmOpen, if_neg (by omega)]
  rw [hsub, gcmSeal, List.take_left, List.drop_left]
  rw [if_pos rfl]
  rw [openBytes_sealBytes (gcmKS key nonce) pt 0 h]

theorem decrypt_encrypt (key nonce pt : List Nat) (hv : validBytes pt = true) (hne : pt ≠ [])
    (hnv : validBytes nonce = true) (hnn : nonce ≠ []) :
    Decrypt key (Encrypt key nonce pt) = .ok pt := by
  have he1 : b64encode nonce ≠ [] := fun hh => hnn ((b64encode_nil nonce).mp hh)
  have he2 : b64encode (gcmSeal key nonce pt) ≠ [] :=
    fun hh => gcmSeal_ne_nil key nonce pt ((b64encode_nil _).mp hh)
  have n1 : ∀ x ∈ b64encode nonce, x ≠ 44 := fun x hx => (mem_b64encode_ne nonce x hx).1
  have n2 : ∀ x ∈ b64encode (gcmSeal key nonce pt), x ≠ 93 :=
    fun x hx => (mem_b64encode_ne _ x hx).2
  have henc : Encrypt key nonce pt =
      encMarker ++ (b64encode nonce ++ 44 :: (b64encode (gcmSeal key nonce pt) ++ 93 :: [])) := by
    simp [Encrypt, if_neg hne]
  have hmatch := findMatch_of_matchAt _ _
    (matchAt_env (b64encode nonce) (b64encode (gcmSeal key nonce pt)) [] he1 he2 n1 n2)
  rw [Decrypt, henc, isEncrypted_append]
  simp only [Bool.true_eq_false, if_false, hmatch, b64_roundtrip nonce hnv,
    b64_roundtrip _ (validBytes_gcmSeal key nonce pt), gcmOpen_gcmSeal key nonce pt hv]

theorem findMatch_encrypt (key nonce pt : List Nat) (hne : pt ≠ []) (hnn : nonce ≠ []) :
    findMatch (Encrypt key nonce pt) =
      some (b64encode nonce, b64encode (gcmSeal key nonce pt)) := by
  have he1 : b64encode nonce ≠ [] := fun hh => hnn ((b64encode_nil nonce).mp hh)
  have he2 : b64encode (gcmSeal key nonce pt) ≠ [] :=
    fun hh => gcmSeal_ne_nil key nonce pt ((b64encode_nil _).mp hh)
  have n1 : ∀ x ∈ b64encode nonce, x ≠ 44 := fun x hx => (mem_b64encode_ne nonce x hx).1
  have n2 : ∀ x ∈ b64encode (gcmSeal key nonce pt), x ≠ 93 :=
    fun x hx => (mem_b64encode_ne _ x hx).2
  have henc : Encrypt key nonce pt =
      encMarker ++ (b64encode nonce ++ 44 :: (b64encode (gcmSeal key nonce pt) ++ 93 :: [])) := by
    simp [Encrypt, if_neg hne]
  rw [henc]
  exact findMatch_of_matchAt _ _
    (matchAt_env (b64encode nonce) (b64encode (gcmSeal key nonce pt)) [] he1 he2 n1 n2)

theorem isEncrypted_encrypt (key n s : List Nat) (h : s ≠ []) :
    IsEncrypted (Encrypt key n s) = true := by
  rw [Encrypt, if_neg h]
  exact isEncrypted_append _

theorem encrypt_ne_nil (key n s : List Nat) (h : s ≠ []) : Encrypt key n s ≠ [] := by
  rw [Encrypt, if_neg h]
  simp [encMarker]

/-- C5: for every non-empty plaintext and every key, two invocations of
encrypt with two distinct freshly generated (12-byte) nonces produce two
different envelope strings, and decrypt applied to each envelope with the
same key returns the original plaintext. -/
theorem encrypt_fresh_nonces (key pt n1 n2 : List Nat)
    (hpt : validBytes pt = true) (hne : pt ≠ [])
    (hv1 : validBytes n1 = true) (hl1 : n1.length = 12)
    (hv2 : validBytes n2 = true) (hl2 : n2.length = 12)
    (hnn : n1 ≠ n2) :
    Encrypt key n1 pt ≠ Encrypt key n2 pt ∧
    Decrypt key (Encrypt key n1 pt) = .ok pt ∧
    Decrypt key (Encrypt key n2 pt) = .ok pt := by
  have hn1 : n1 ≠ [] := by intro h; subst h; simp at hl1
  have hn2 : n2 ≠ [] := by intro h; subst h; simp at hl2
  refine ⟨?_, decrypt_encrypt key n1 pt hpt hne hv1 hn1,
    decrypt_encrypt key n2 pt hpt hne hv2 hn2⟩
  intro heq
  have h1 := findMatch_encrypt key n1 pt hne hn1
  have h2 := findMatch_encrypt key n2 pt hne hn2
  rw [heq] at h1
  have hpair := Option.some.inj (h1.symm.trans h2)
  have henc : b64encode n1 = b64encode n2 := congrArg Prod.fst hpair
  have hsome : some n1 = some n2 := by
    rw [← b64_roundtrip n1 hv1, ← b64_roundtrip n2 hv2, henc]
  exact hnn (Option.some.inj hsome)

theorem encrypt_fresh_nonces_witness :
    Encrypt [1] (List.replicate 12 0) [104, 105] ≠ Encrypt [1] (1 :: List.replicate 11 0) [104, 105] ∧
    Decrypt [1] (Encrypt [1] (List.replicate 12 0) [104, 105]) = .ok [104, 105] ∧
    Decrypt [1] (Encrypt [1] (1 :: List.replicate 11 0) [104, 105]) = .ok [104, 105] :=
  encrypt_fresh_nonces [1] [104, 105] (List.replicate 12 0) (1 :: List.replicate 11 0)
    (by decide) (by decide) (by decide) (by decide) (by decide) (by decide) (by decide)

theorem encryptEntry_idem (key n1 n2 : List Nat) (kv : String × Value) :
    encryptEntry key n2 (encryptEntry key n1 kv) = encryptEntry key n1 kv := by
  obtain ⟨k, v⟩ := kv
  by_cases hs : k ∈ sensitiveFields
  · cases v with
    | other => simp [encryptEntry, hs]
    | str s =>
      by_cases hc : s ≠ [] ∧ IsEncrypted s = false
      · have hEnc : IsEncrypted (Encrypt key n1 s) = true := isEncrypted_encrypt key n1 s hc.1
        simp [encryptEntry, hs, hc, hEnc]
      · simp [encryptEntry, hs, hc]
  · simp [encryptEntry, hs]

theorem encryptFieldsFrom_idem (key : List Nat) (ns1 ns2 : Nat → List Nat) :
    ∀ (d : List (String × Value)) (i1 i2 : Nat),
      encryptFieldsFrom key ns2 i2 (encryptFieldsFrom key ns1 i1 d) = encryptFieldsFrom key ns1 i1 d
  | [], _, _ => rfl
  | kv :: rest, i1, i2 => by
    simp only [encryptFieldsFrom, encryptEntry_idem,
      encryptFieldsFrom_idem key ns1 ns2 rest (i1 + 1) (i2 + 1)]

/-- C6: running EncryptSensitiveFields twice on the same record with the
same cipher encrypts each sensitive field at most once: the second call
(whatever fresh nonces it draws) leaves every entry of the record unchanged,
because every value produced by encrypt is itself recognized as an envelope
and skipped. -/
theorem encryptSensitiveFields_idempotent (key : List Nat) (ns1 ns2 : Nat → List Nat)
    (data : List (String × Value)) :
    EncryptSensitiveFields key ns2 (EncryptSensitiveFields key ns1 data) =
      EncryptSensitiveFields key ns1 data :=
  encryptFieldsFrom_idem key ns1 ns2 data 0 0

/-- C7: decrypt is total over input shapes: a string without the envelope
marker is returned unchanged with no error, while a string with the marker
whose envelope is malformed (no regex match, invalid base64 in either
group) or whose authentication tag does not verify under the given key
makes decrypt fail with an error (so it never falls back to returning the
input as plaintext). -/
theorem decrypt_shape_cases (key s : List Nat) :
    (IsEncrypted s = false → Decrypt key s = .ok s) ∧
    (IsEncrypted s = true →
      (findMatch s = none → Decrypt key s = .error "invalid encrypted field format") ∧
      (∀ nB cB, findMatch s = some (nB, cB) →
        (b64decode nB = none → Decrypt key s = .error "failed to decode nonce") ∧
        (∀ nonce, b64decode nB = some nonce → b64decode cB = none →
          Decrypt key s = .error "failed to decode ciphertext") ∧
        (∀ nonce ct, b64decode nB = some nonce → b64decode cB = some ct →
          gcmOpen key nonce ct = none →
          Decrypt key s = .error "failed to decrypt"))) := by
  constructor
  · intro h
    simp [Decrypt, h]
  · intro htrue
    refine ⟨?_, ?_⟩
    · intro hfm
      simp [Decrypt, htrue, hfm]
    · intro nB cB hfm
      refine ⟨?_, ?_, ?_⟩
      · intro hdn
        simp [Decrypt, htrue, hfm, hdn]
      · intro nonce hdn hdc
        simp [Decrypt, htrue, hfm, hdn, hdc]
      · intro nonce ct hdn hdc hop
        simp [Decrypt, htrue, hfm, hdn, hdc, hop]

theorem decrypt_shape_cases_witness :
    Decrypt [1] [97, 98, 99] = .ok [97, 98, 99] ∧
    Decrypt [1] encMarker = .error "invalid encrypted field format" ∧
    Decrypt [1] (encMarker ++ [120, 44, 121, 93]) = .error "failed to decode nonce" ∧
    Decrypt [9, 9] (Encrypt [1, 2] (List.replicate 12 0) [104, 105]) = .error "failed to decrypt" :=
  ⟨(decrypt_shape_cases [1] [97, 98, 99]).1 (by decide),
   ((decrypt_shape_cases [1] encMarker).2 (by decide)).1 (by decide),
   ((((decrypt_shape_cases [1] (encMarker ++ [120, 44, 121, 93])).2 (by decide)).2
      [120] [121] (by decide)).1 (by decide)),
   ((((decrypt_shape_cases [9, 9] (Encrypt [1, 2] (List.replicate 12 0) [104, 105])).2
      (by decide)).2
      (b64encode (List.replicate 12 0))
      (b64encode (gcmSeal [1, 2] (List.replicate 12 0) [104, 105])) (by decide)).2.2
      (List.replicate 12 0) (gcmSeal [1, 2] (List.replicate 12 0) [104, 105])
      (by decide) (by decide) (by decide))⟩

theorem validate_none_parts (app : Application) (h : validateApplication app = none) :
    validateTypeSpecific app = none ∧ app.apiHostname ≠ "" := by
  unfold validateApplication at h
  cases hts : validateTypeSpecific app with
  | some e => rw [hts] at h; split_ifs at h <;> simp_all
  | none => rw [hts] at h; split_ifs at h <;> simp_all

/-- C2: validateApplication accepts a saml application whose entity_id,
acs_url, name and api_hostname are non-empty even when client_id and
client_secret are empty; a websdk application with empty client_id is
rejected with the validation error naming client_id; an oidc application
passes only when client_id, client_secret and redirect_uri are all
non-empty; api_hostname is required for every type. -/
theorem validateApplication_type_rules (app : Application) :
    (app.type = "saml" → app.name ≠ "" → app.entityID ≠ "" → app.acsURL ≠ "" →
      app.apiHostname ≠ "" → validateApplication app = none) ∧
    (app.type = "websdk" → app.name ≠ "" → app.clientID = "" →
      validateApplication app = some "client_id is required") ∧
    (app.type = "oidc" → validateApplication app = none →
      app.clientID ≠ "" ∧ app.clientSecret ≠ "" ∧ app.redirectURI ≠ "") ∧
    (validateApplication app = none → app.apiHostname ≠ "") := by
  refine ⟨?_, ?_, ?_, ?_⟩
  · intro ht hn he ha hh
    unfold validateApplication validateTypeSpecific
    rw [ht]
    simp [hn, he, ha, hh, validTypes]
  · intro ht hn hc
    unfold validateApplication validateTypeSpecific
    rw [ht]
    simp [hn, hc, validTypes]
  · intro ht hv
    have hts := (validate_none_parts app hv).1
    unfold validateTypeSpecific at hts
    rw [ht] at hts
    simp only [String.reduceEq, if_false, if_true, reduceIte] at hts
    split_ifs at hts <;> simp_all
  · intro hv
    exact (validate_none_parts app hv).2

theorem validateApplication_type_rules_witness :
    validateApplication { blankApp with type := "saml", name := "S", entityID := "e", acsURL := "u", apiHostname := "h" } = none ∧
    validateApplication { blankApp with type := "websdk", name := "W", entityID := "e", acsURL := "u", apiHostname := "h" } = some "client_id is required" ∧
    ({ blankApp with type := "oidc", name := "O", apiHostname := "h", clientID := "c", clientSecret := "s", redirectURI := "r" } : Application).clientID ≠ "" := by
  refine ⟨?_, ?_, ?_⟩
  · exact (validateApplication_type_rules _).1 (by decide) (by decide) (by decide)
      (by decide) (by decide)
  · exact (validateApplication_type_rules _).2.1 (by decide) (by decide) (by decide)
  · exact ((validateApplication_type_rules _).2.2.1 (by decide) (by decide)).1

theorem migrateApp_idem (a : Application) : migrateApp (migrateApp a) = migrateApp a := by
  by_cases h : a.type = ""
  · by_cases hd : a.isDMP <;> simp [migrateApp, h, hd]
  · simp [migrateApp, h]

/-- C4: after load, an application that had no explicit type gets one from
the legacy boolean (true gives dmp, false gives websdk), a record that
already carries a type is left unchanged, GetApplicationType reports the
migrated type, and the migration is idempotent across repeated loads. -/
theorem legacy_migration (a : Application) (c : Config) :
    (a.type = "" → a.isDMP = true → (migrateApp a).type = "dmp") ∧
    (a.type = "" → a.isDMP = false → (migrateApp a).type = "websdk") ∧
    (a.type ≠ "" → migrateApp a = a) ∧
    (a.type = "" → (migrateApp a).GetApplicationType = (if a.isDMP then "dmp" else "websdk")) ∧
    migrateApp (migrateApp a) = migrateApp a ∧
    migrateConfig (migrateConfig c) = migrateConfig c := by
  refine ⟨?_, ?_, ?_, ?_, migrateApp_idem a, ?_⟩
  · intro h hd
    simp [migrateApp, h, hd]
  · intro h hd
    simp [migrateApp, h, hd]
  · intro h
    simp [migrateApp, h]
  · intro h
    by_cases hd : a.isDMP <;> simp [migrateApp, Application.GetApplicationType, h, hd]
  · have hmap : ∀ l : List Application, (l.map migrateApp).map migrateApp = l.map migrateApp := by
      intro l
      induction l with
      | nil => rfl
      | cons x xs ih => simp [migrateApp_idem, ih]
    simp [migrateConfig, hmap]

theorem legacy_migration_witness :
    (migrateApp { blankApp with isDMP := true }).type = "dmp" ∧
    (migrateApp { blankApp with isDMP := false }).type = "websdk" ∧
    migrateApp { blankApp with type := "saml" } = { blankApp with type := "saml" } ∧
    (migrateApp { blankApp with isDMP := true }).GetApplicationType = "dmp" :=
  ⟨(legacy_migration { blankApp with isDMP := true } ⟨[], []⟩).1 (by decide) (by decide),
   (legacy_migration { blankApp with isDMP := false } ⟨[], []⟩).2.1 (by decide) (by decide),
   (legacy_migration { blankApp with type := "saml" } ⟨[], []⟩).2.2.1 (by decide),
   (legacy_migration { blankApp with isDMP := true } ⟨[], []⟩).2.2.2.1 (by decide)⟩

theorem saveStep_config (cfg f : Config) (w : Bool) : (saveStep cfg f w).1.config = cfg := by
  cases w <;> rfl

theorem saveStep_file_false (cfg f : Config) : (saveStep cfg f false).1.file = f := rfl

theorem saveStep_err_false (cfg f : Config) :
    (saveStep cfg f false).2 = .error "failed to write config file" := rfl

theorem keepApps_eq_filter (id : String) :
    ∀ l : List Application, keepApps id l = l.filter (fun a => a.tenantID ≠ id)
  | [] => rfl
  | a :: rest => by
    by_cases h : a.tenantID ≠ id <;>
      simp [keepApps, h, keepApps_eq_filter id rest, List.filter_cons]

theorem findTenantIdx_decomp (id : String) :
    ∀ (l : List Tenant) (i : Nat), findTenantIdx id l = some i →
      ∃ pre t post, l = pre ++ t :: post ∧ t.id = id ∧ (∀ t2 ∈ pre, t2.id ≠ id) ∧ i = pre.length
  | [], i, h => by simp [findTenantIdx] at h
  | t :: rest, i, h => by
    by_cases ht : t.id = id
    · simp only [findTenantIdx, if_pos ht, Option.some.injEq] at h
      exact ⟨[], t, rest, by simp, ht, by simp, by simp [← h]⟩
    · simp only [findTenantIdx, if_neg ht] at h
      cases hr : findTenantIdx id rest with
      | none => rw [hr] at h; simp at h
      | some j =>
        rw [hr] at h
        simp at h
        obtain ⟨pre, t2, post, hl, hid, hpre, hj⟩ := findTenantIdx_decomp id rest j hr
        refine ⟨t :: pre, t2, post, by simp [hl], hid, ?_, by simp [hj, ← h]⟩
        intro x hx
        rcases List.mem_cons.mp hx with rfl | hx2
        · exact ht
        · exact hpre x hx2

theorem findTenantIdx_isSome (id : String) :
    ∀ l : List Tenant, (∃ t ∈ l, t.id = id) → ∃ i, findTenantIdx id l = some i
  | [], h => by simp at h
  | t :: rest, h => by
    by_cases ht : t.id = id
    · exact ⟨0, by simp [findTenantIdx, ht]⟩
    · obtain ⟨t2, ht2, hid⟩ := h
      rcases List.mem_cons.mp ht2 with rfl | hmem
      · exact absurd hid ht
      · obtain ⟨j, hj⟩ := findTenantIdx_isSome id rest ⟨t2, hmem, hid⟩
        exact ⟨j + 1, by simp [findTenantIdx, ht, hj]⟩

theorem deleteTenant_core (id : String) (l : List Tenant) (i : Nat)
    (h : findTenantIdx id l = some i) :
    (l.take i ++ l.drop (i + 1)).countP (fun t => t.id = id) + 1
        = l.countP (fun t => t.id = id) ∧
    (∀ t ∈ l, t.id ≠ id → t ∈ l.take i ++ l.drop (i + 1)) ∧
    (∀ t ∈ l.take i ++ l.drop (i + 1), t ∈ l) := by
  obtain ⟨pre, t, post, rfl, htid, hpre, rfl⟩ := findTenantIdx_decomp id _ i h
  have htd : (pre ++ t :: post).take pre.length ++ (pre ++ t :: post).drop (pre.length + 1)
      = pre ++ post := by
    rw [List.take_left]
    congr 1
    rw [show pre.length + 1 = (pre ++ [t]).length by simp]
    rw [show pre ++ t :: post = (pre ++ [t]) ++ post by simp]
    exact List.drop_left _ _
  rw [htd]
  refine ⟨?_, ?_, ?_⟩
  · simp [List.countP_append, List.countP_cons, htid]
    omega
  · intro x hx hne
    rcases List.mem_append.mp hx with h1 | h2
    · exact List.mem_append.mpr (Or.inl h1)
    · rcases List.mem_cons.mp h2 with rfl | h3
      · exact absurd htid hne
      · exact List.mem_append.mpr (Or.inr h3)
  · intro x hx
    rcases List.mem_append.mp hx with h1 | h2
    · exact List.mem_append.mpr (Or.inl h1)
    · exact List.mem_append.mpr (Or.inr (List.mem_cons.mpr (Or.inr h2)))

/-- C3: when the document contains a tenant with the given identifier,
DeleteTenant keeps exactly the applications whose tenant reference differs
from it, removes exactly one tenant carrying that identifier, keeps every
tenant with a different identifier, and introduces no tenant. -/
theorem deleteTenant_cascade (s : Store) (id : String) (writeOk : Bool)
    (hpresent : ∃ t ∈ s.config.tenants, t.id = id) :
    (Store.deleteTenant s id writeOk).1.config.applications
        = s.config.applications.filter (fun a => a.tenantID ≠ id) ∧
    (Store.deleteTenant s id writeOk).1.config.tenants.countP (fun t => t.id = id) + 1
        = s.config.tenants.countP (fun t => t.id = id) ∧
    (∀ t ∈ s.config.tenants, t.id ≠ id → t ∈ (Store.deleteTenant s id writeOk).1.config.tenants) ∧
    (∀ t ∈ (Store.deleteTenant s id writeOk).1.config.tenants, t ∈ s.config.tenants) := by
  obtain ⟨i, hi⟩ := findTenantIdx_isSome id s.config.tenants hpresent
  have hcore := deleteTenant_core id s.config.tenants i hi
  have hunfold : (Store.deleteTenant s id writeOk).1.config =
      { tenants := s.config.tenants.take i ++ s.config.tenants.drop (i + 1)
        applications := keepApps id s.config.applications } := by
    rw [Store.deleteTenant, hi]
    exact saveStep_config _ _ _
  rw [hunfold]
  exact ⟨keepApps_eq_filter id _, hcore.1, hcore.2.1, hcore.2.2⟩

theorem deleteTenant_cascade_witness :
    (Store.deleteTenant cexStore "t1" true).1.config.applications
        = cexStore.config.applications.filter (fun a => a.tenantID ≠ "t1") ∧
    (Store.deleteTenant cexStore "t1" true).1.config.tenants.countP (fun t => t.id = "t1") + 1
        = cexStore.config.tenants.countP (fun t => t.id = "t1") ∧
    (∀ t ∈ cexStore.config.tenants, t.id ≠ "t1" →
      t ∈ (Store.deleteTenant cexStore "t1" true).1.config.tenants) ∧
    (∀ t ∈ (Store.deleteTenant cexStore "t1" true).1.config.tenants,
      t ∈ cexStore.config.tenants) :=
  deleteTenant_cascade cexStore "t1" true (by decide)

theorem updateApps_none (id : String) (u : Application) :
    ∀ l : List Application, (∀ a ∈ l, a.id ≠ id) → updateApps id u l = none
  | [], _ => rfl
  | a :: rest, h => by
    have ha : a.id ≠ id := h a (by simp)
    simp [updateApps, ha, updateApps_none id u rest (fun x hx => h x (by simp [hx]))]

theorem deleteApps_none (id : String) :
    ∀ l : List Application, (∀ a ∈ l, a.id ≠ id) → deleteApps id l = none
  | [], _ => rfl
  | a :: rest, h => by
    have ha : a.id ≠ id := h a (by simp)
    simp [deleteApps, ha, deleteApps_none id rest (fun x hx => h x (by simp [hx]))]

/-- C8 counterexample: the claim quantifies over every application value,
but UpdateApplication validates first, so an unknown identifier together
with an invalid value yields the validation error, not the not-found
error (the store is also left unchanged). -/
theorem update_notfound_claim_cex :
    Store.updateApplication cexStore "zzz" blankApp true
        = (cexStore, Except.error "application name is required") ∧
    ("application name is required" : String) ≠ notFoundApp "zzz" := by
  constructor
  · rfl
  · decide

/-- C8 (amended): for an identifier absent from the document,
UpdateApplication with a value that passes validation and
DeleteApplication with any value both fail with the not-found error and
return the store unchanged (no list mutation, no file write). -/
theorem update_delete_notfound (s : Store) (id : String) (u : Application) (writeOk : Bool)
    (habs : ∀ a ∈ s.config.applications, a.id ≠ id)
    (hval : validateApplication u = none) :
    Store.updateApplication s id u writeOk = (s, .error (notFoundApp id)) ∧
    Store.deleteApplication s id writeOk = (s, .error (notFoundApp id)) := by
  constructor
  · simp [Store.updateApplication, hval, updateApps_none id u _ habs]
  · simp [Store.deleteApplication, deleteApps_none id _ habs]

theorem update_delete_notfound_witness :
    Store.updateApplication cexStore "zzz" validApp true = (cexStore, .error (notFoundApp "zzz")) ∧
    Store.deleteApplication cexStore "zzz" true = (cexStore, .error (notFoundApp "zzz")) :=
  update_delete_notfound cexStore "zzz" validApp true (by decide) (by decide)

theorem updateApps_map_id (id : String) (u : Application) :
    ∀ (l l2 : List Application), updateApps id u l = some l2 →
      l2.map (fun a => a.id) = l.map (fun a => a.id) ∧ { u with id := id } ∈ l2
  | [], l2, h => by simp [updateApps] at h
  | a :: rest, l2, h => by
    by_cases ha : a.id = id
    · simp only [updateApps, if_pos ha, Option.some.injEq] at h
      subst h
      exact ⟨by simp [ha], by simp⟩
    · simp only [updateApps, if_neg ha] at h
      cases hr : updateApps id u rest with
      | none => rw [hr] at h; simp at h
      | some rest2 =>
        rw [hr] at h
        simp only [Option.some.injEq] at h
        obtain ⟨hmap, hmem⟩ := updateApps_map_id id u rest rest2 hr
        subst h
        exact ⟨by simp [hmap], by simp [hmem]⟩

/-- C9: when UpdateApplication succeeds, the stored record keeps the
identifier it was addressed by (whatever identifier the incoming value
carried), the list of application identifiers is unchanged position by
position, and identifier uniqueness is therefore preserved without any
explicit uniqueness check. -/
theorem updateApplication_preserves_ids (s : Store) (id : String) (u : Application)
    (writeOk : Bool)
    (hok : (Store.updateApplication s id u writeOk).2 = .ok ()) :
    (Store.updateApplication s id u writeOk).1.config.applications.map (fun a => a.id)
        = s.config.applications.map (fun a => a.id) ∧
    { u with id := id } ∈ (Store.updateApplication s id u writeOk).1.config.applications ∧
    ((s.config.applications.map (fun a => a.id)).Nodup →
      ((Store.updateApplication s id u writeOk).1.config.applications.map (fun a => a.id)).Nodup) := by
  unfold Store.updateApplication at hok ⊢
  cases hv : validateApplication u with
  | some e => rw [hv] at hok; simp at hok
  | none =>
    rw [hv] at hok
    cases hu : updateApps id u s.config.applications with
    | none => rw [hu] at hok; simp at hok
    | some apps =>
      rw [hu] at hok
      cases writeOk with
      | false => simp [saveStep] at hok
      | true =>
        obtain ⟨hmap, hmem⟩ := updateApps_map_id id u _ apps hu
        refine ⟨?_, ?_, ?_⟩
        · simpa [saveStep] using hmap
        · simpa [saveStep] using hmem
        · intro hnd
          simpa [saveStep, hmap] using hnd

theorem updateApplication_preserves_ids_witness :
    (Store.updateApplication cexStore "a1" validApp true).1.config.applications.map (fun a => a.id)
        = cexStore.config.applications.map (fun a => a.id) ∧
    { validApp with id := "a1" } ∈ (Store.updateApplication cexStore "a1" validApp true).1.config.applications ∧
    ((cexStore.config.applications.map (fun a => a.id)).Nodup →
      ((Store.updateApplication cexStore "a1" validApp true).1.config.applications.map (fun a => a.id)).Nodup) :=
  updateApplication_preserves_ids cexStore "a1" validApp true (by decide)

/-- C10: every mutating store operation applies its change to the in-memory
document before writing the file: with a failing write the in-memory
document is exactly what a successful write would have produced, the
backing file keeps its old content, and (whenever the mutation itself goes
through) the operation reports the write error — document and file diverge
with no rollback. -/
theorem mutate_then_write (s : Store) (fid : String) (app0 : Application)
    (idu : String) (u : Application) (ida : String) (t0 : Tenant) (idt : String) :
    ((Store.addApplication s fid app0 false).1.config
        = (Store.addApplication s fid app0 true).1.config ∧
     (Store.addApplication s fid app0 false).1.file = s.file ∧
     (validateApplication (appWithId fid app0) = none →
       (s.config.applications.any (fun ex => ex.id = (appWithId fid app0).id)) = false →
       (Store.addApplication s fid app0 false).2 = .error "failed to write config file")) ∧
    ((Store.updateApplication s idu u false).1.config
        = (Store.updateApplication s idu u true).1.config ∧
     (Store.updateApplication s idu u false).1.file = s.file ∧
     (validateApplication u = none →
       (updateApps idu u s.config.applications).isSome = true →
       (Store.updateApplication s idu u false).2 = .error "failed to write config file")) ∧
    ((Store.deleteApplication s ida false).1.config
        = (Store.deleteApplication s ida true).1.config ∧
     (Store.deleteApplication s ida false).1.file = s.file ∧
     ((deleteApps ida s.config.applications).isSome = true →
       (Store.deleteApplication s ida false).2 = .error "failed to write config file")) ∧
    ((Store.addTenant s fid t0 false).1.config = (Store.addTenant s fid t0 true).1.config ∧
     (Store.addTenant s fid t0 false).1.file = s.file ∧
     (validateTenant (tenantWithId fid t0) = none →
       (s.config.tenants.any (fun ex => ex.id = (tenantWithId fid t0).id)) = false →
       (Store.addTenant s fid t0 false).2 = .error "failed to write config file")) ∧
    ((Store.deleteTenant s idt false).1.config = (Store.deleteTenant s idt true).1.config ∧
     (Store.deleteTenant s idt false).1.file = s.file ∧
     ((findTenantIdx idt s.config.tenants).isSome = true →
       (Store.deleteTenant s idt false).2 = .error "failed to write config file")) := by
  refine ⟨⟨?_, ?_, ?_⟩, ⟨?_, ?_, ?_⟩, ⟨?_, ?_, ?_⟩, ⟨?_, ?_, ?_⟩, ⟨?_, ?_, ?_⟩⟩
  · cases hv : validateApplication (appWithId fid app0) with
    | some e => simp [Store.addApplication, hv]
    | none =>
      by_cases hd : s.config.applications.any (fun ex => ex.id = (appWithId fid app0).id) <;>
        simp [Store.addApplication, hv, hd, saveStep]
  · cases hv : validateApplication (appWithId fid app0) with
    | some e => simp [Store.addApplication, hv]
    | none =>
      by_cases hd : s.config.applications.any (fun ex => ex.id = (appWithId fid app0).id) <;>
        simp [Store.addApplication, hv, hd, saveStep]
  · intro hv hd
    simp [Store.addApplication, hv, hd, saveStep]
  · cases hv : validateApplication u with
    | some e => simp [Store.updateApplication, hv]
    | none =>
      cases hu : updateApps idu u s.config.applications with
      | none => simp [Store.updateApplication, hv, hu]
      | some l2 => simp [Store.updateApplication, hv, hu, saveStep]
  · cases hv : validateApplication u with
    | some e => simp [Store.updateApplication, hv]
    | none =>
      cases hu : updateApps idu u s.config.applications with
      | none => simp [Store.updateApplication, hv, hu]
      | some l2 => simp [Store.updateApplication, hv, hu, saveStep]
  · intro hv hsome
    cases hu : updateApps idu u s.config.applications with
    | none => rw [hu] at hsome; simp at hsome
    | some l2 => simp [Store.updateApplication, hv, hu, saveStep]
  · cases hu : deleteApps ida s.config.applications with
    | none => simp [Store.deleteApplication, hu]
    | some l2 => simp [Store.deleteApplication, hu, saveStep]
  · cases hu : deleteApps ida s.config.applications with
    | none => simp [Store.deleteApplication, hu]
    | some l2 => simp [Store.deleteApplication, hu, saveStep]
  · intro hsome
    cases hu : deleteApps ida s.config.applications with
    | none => rw [hu] at hsome; simp at hsome
    | some l2 => simp [Store.deleteApplication, hu, saveStep]
  · cases hv : validateTenant (tenantWithId fid t0) with
    | some e => simp [Store.addTenant, hv]
    | none =>
      by_cases hd : s.config.tenants.any (fun ex => ex.id = (tenantWithId fid t0).id) <;>
        simp [Store.addTenant, hv, hd, saveStep]
  · cases hv : validateTenant (tenantWithId fid t0) with
    | some e => simp [Store.addTenant, hv]
    | none =>
      by_cases hd : s.config.tenants.any (fun ex => ex.id = (tenantWithId fid t0).id) <;>
        simp [Store.addTenant, hv, hd, saveStep]
  · intro hv hd
    simp [Store.addTenant, hv, hd, saveStep]
  · cases hf : findTenantIdx idt s.config.tenants with
    | none => simp [Store.deleteTenant, hf]
    | some i => simp [Store.deleteTenant, hf, saveStep]
  · cases hf : findTenantIdx idt s.config.tenants with
    | none => simp [Store.deleteTenant, hf]
    | some i => simp [Store.deleteTenant, hf, saveStep]
  · intro hsome
    cases hf : findTenantIdx idt s.config.tenants with
    | none => rw [hf] at hsome; simp at hsome
    | some i => simp [Store.deleteTenant, hf, saveStep]

theorem mutate_then_write_witness :
    (Store.addApplication cexStore "f9" validApp false).2 = .error "failed to write config file" ∧
    (Store.updateApplication cexStore "a1" validApp false).2 = .error "failed to write config file" ∧
    (Store.deleteApplication cexStore "a1" false).2 = .error "failed to write config file" ∧
    (Store.addTenant cexStore "f9" validTenant9 false).2 = .error "failed to write config file" ∧
    (Store.deleteTenant cexStore "t1" false).2 = .error "failed to write config file" ∧
    (Store.addApplication cexStore "f9" validApp false).1.config
        = (Store.addApplication cexStore "f9" validApp true).1.config ∧
    (Store.addApplication cexStore "f9" validApp false).1.file = cexStore.file := by
  have T := mutate_then_write cexStore "f9" validApp "a1" validApp "a1" validTenant9 "t1"
  exact ⟨T.1.2.2 (by decide) (by decide), T.2.1.2.2 (by decide) (by decide),
    T.2.2.1.2.2 (by decide), T.2.2.2.1.2.2 (by decide) (by decide),
    T.2.2.2.2.2.2 (by decide), T.1.1, T.1.2.1⟩

theorem decrypt_encField (key n s : List Nat) (hv : validBytes s = true)
    (hne : IsEncrypted s = false) (hnv : validBytes n = true) (hl : n.length = 12) :
    Decrypt key (encField key n s) = .ok s := by
  have hn : n ≠ [] := by intro h; subst h; simp at hl
  by_cases hs : s = []
  · subst hs
    have h0 : encField key n [] = [] := by simp [encField]
    rw [h0]
    rfl
  · rw [encField, if_pos ⟨hs, hne⟩]
    exact decrypt_encrypt key n s hv hs hnv hn

theorem encField_empty_or_enc (key n s : List Nat) (hne : IsEncrypted s = false) :
    (s = [] ∧ encField key n s = []) ∨ (s ≠ [] ∧ IsEncrypted (encField key n s) = true) := by
  by_cases hs : s = []
  · subst hs
    exact Or.inl ⟨rfl, by simp [encField]⟩
  · refine Or.inr ⟨hs, ?_⟩
    rw [encField, if_pos ⟨hs, hne⟩]
    exact isEncrypted_encrypt key n s hs

theorem mapM_decTenant_saveTenants (key : List Nat) (nt : Nat → List Nat)
    (hnt : ∀ j, validBytes (nt j) = true ∧ (nt j).length = 12) :
    ∀ (ts : List STenant) (i : Nat),
      (∀ t ∈ ts, validBytes t.adminAPISecret = true ∧ IsEncrypted t.adminAPISecret = false) →
      (saveTenants key nt i ts).mapM (decTenant key) = Except.ok ts
  | [], _, _ => rfl
  | t :: rest, i, h => by
    have ht := h t (by simp)
    have hrest := mapM_decTenant_saveTenants key nt hnt rest (i + 1)
      (fun x hx => h x (by simp [hx]))
    have hdec : Decrypt key (encField key (nt i) t.adminAPISecret) = .ok t.adminAPISecret :=
      decrypt_encField key (nt i) t.adminAPISecret ht.1 ht.2 (hnt i).1 (hnt i).2
    have hXdec : decTenant key { t with adminAPISecret := encField key (nt i) t.adminAPISecret }
        = .ok t := by
      simp [decTenant, hdec]
    simp only [saveTenants, List.mapM_cons, hXdec, hrest]
    rfl

theorem mapM_decApp_saveApps (key : List Nat) (na : Nat → List Nat)
    (hna : ∀ j, validBytes (na j) = true ∧ (na j).length = 12) :
    ∀ (apps : List SApp) (i : Nat),
      (∀ a ∈ apps, (validBytes a.clientSecret = true ∧ IsEncrypted a.clientSecret = false) ∧
        (validBytes a.signingKey = true ∧ IsEncrypted a.signingKey = false)) →
      (saveApps key na i apps).mapM (decApp key) = Except.ok apps
  | [], _, _ => rfl
  | a :: rest, i, h => by
    have ha := h a (by simp)
    have hrest := mapM_decApp_saveApps key na hna rest (i + 1) (fun x hx => h x (by simp [hx]))
    have hcs : Decrypt key (encField key (na (2 * i)) a.clientSecret) = .ok a.clientSecret :=
      decrypt_encField key _ _ ha.1.1 ha.1.2 (hna (2 * i)).1 (hna (2 * i)).2
    have hsk : Decrypt key (encField key (na (2 * i + 1)) a.signingKey) = .ok a.signingKey :=
      decrypt_encField key _ _ ha.2.1 ha.2.2 (hna (2 * i + 1)).1 (hna (2 * i + 1)).2
    have hXdec : decApp key { a with clientSecret := encField key (na (2 * i)) a.clientSecret, signingKey := encField key (na (2 * i + 1)) a.signingKey } = .ok a := by
      simp [decApp, hcs, hsk]
    simp only [saveApps, List.mapM_cons, hXdec, hrest]
    rfl

theorem mem_saveTenants (key : List Nat) (nt : Nat → List Nat) :
    ∀ (ts : List STenant) (i : Nat), ∀ t2 ∈ saveTenants key nt i ts,
      ∃ t, t ∈ ts ∧ ∃ j, t2 = { t with adminAPISecret := encField key (nt j) t.adminAPISecret }
  | [], _, t2 => by simp [saveTenants]
  | t :: rest, i, t2 => by
    intro h
    rcases List.mem_cons.mp h with rfl | h2
    · exact ⟨t, by simp, i, rfl⟩
    · obtain ⟨t0, ht0, j, hj⟩ := mem_saveTenants key nt rest (i + 1) t2 h2
      exact ⟨t0, by simp [ht0], j, hj⟩

theorem mem_saveApps (key : List Nat) (na : Nat → List Nat) :
    ∀ (apps : List SApp) (i : Nat), ∀ a2 ∈ saveApps key na i apps,
      ∃ a, a ∈ apps ∧ ∃ j1 j2, a2 = { a with
        clientSecret := encField key (na j1) a.clientSecret
        signingKey := encField key (na j2) a.signingKey }
  | [], _, a2 => by simp [saveApps]
  | a :: rest, i, a2 => by
    intro h
    rcases List.mem_cons.mp h with rfl | h2
    · exact ⟨a, by simp, 2 * i, 2 * i + 1, rfl⟩
    · obtain ⟨a0, ha0, j1, j2, hj⟩ := mem_saveApps key na rest (i + 1) a2 h2
      exact ⟨a0, by simp [ha0], j1, j2, hj⟩

/-- C1 counterexample: a structurally valid encryption-enabled document
whose client secret happens to be envelope-shaped plaintext (the marker
followed by the bytes of x comma y and a bracket).  Save skips it as
already encrypted, so the written file holds the value verbatim, and load
then fails to decrypt it instead of reproducing the document. -/
theorem secdoc_roundtrip_claim_cex :
    SecDoc.save cexSecDoc [7] zeroNonce zeroNonce = cexSecDoc ∧
    SecDoc.load (SecDoc.save cexSecDoc [7] zeroNonce zeroNonce) [7]
        = .error "failed to decrypt client_secret: failed to decode nonce" := by
  constructor
  · decide
  · decide

/-- C1 (amended, modelled from the spec; the encryption-integrated config
source is absent from src/, only its tests are): for an encryption-enabled
document whose sensitive fields are byte-valid and not themselves
envelope-shaped, and a fixed key with fresh 12-byte nonces, save followed
by load reproduces the document exactly, every sensitive field stored in
the written file is empty or an envelope, and no stored sensitive field
equals any non-empty original plaintext. -/
theorem secdoc_encrypted_roundtrip (d : SecDoc) (key : List Nat) (nt na : Nat → List Nat)
    (henc : d.encryptionEnabled = true)
    (hvals : ∀ v ∈ d.sensitiveValues, validBytes v = true ∧ IsEncrypted v = false)
    (hnt : ∀ j, validBytes (nt j) = true ∧ (nt j).length = 12)
    (hna : ∀ j, validBytes (na j) = true ∧ (na j).length = 12) :
    SecDoc.load (SecDoc.save d key nt na) key = .ok d ∧
    (∀ w ∈ (SecDoc.save d key nt na).sensitiveValues, w = [] ∨ IsEncrypted w = true) ∧
    (∀ v ∈ d.sensitiveValues, v ≠ [] → ∀ w ∈ (SecDoc.save d key nt na).sensitiveValues, w ≠ v) := by
  have hten : ∀ t ∈ d.tenants,
      validBytes t.adminAPISecret = true ∧ IsEncrypted t.adminAPISecret = false := by
    intro t ht
    refine hvals _ ?_
    simp only [SecDoc.sensitiveValues, List.mem_append, List.mem_map]
    exact Or.inl (Or.inl ⟨t, ht, rfl⟩)
  have happ : ∀ a ∈ d.applications,
      (validBytes a.clientSecret = true ∧ IsEncrypted a.clientSecret = false) ∧
      (validBytes a.signingKey = true ∧ IsEncrypted a.signingKey = false) := by
    intro a ha
    constructor
    · refine hvals _ ?_
      simp only [SecDoc.sensitiveValues, List.mem_append, List.mem_map]
      exact Or.inl (Or.inr ⟨a, ha, rfl⟩)
    · refine hvals _ ?_
      simp only [SecDoc.sensitiveValues, List.mem_append, List.mem_map]
      exact Or.inr ⟨a, ha, rfl⟩
  have hsave : SecDoc.save d key nt na =
      { d with tenants := saveTenants key nt 0 d.tenants
               applications := saveApps key na 0 d.applications } := by
    rw [SecDoc.save, if_pos henc]
  have h2 : ∀ w ∈ (SecDoc.save d key nt na).sensitiveValues, w = [] ∨ IsEncrypted w = true := by
    intro w hw
    rw [hsave] at hw
    simp only [SecDoc.sensitiveValues, List.mem_append, List.mem_map] at hw
    rcases hw with (⟨t2, ht2, rfl⟩ | ⟨a2, ha2, rfl⟩) | ⟨a2, ha2, rfl⟩
    · obtain ⟨t0, ht0, j, rfl⟩ := mem_saveTenants key nt d.tenants 0 t2 ht2
      rcases encField_empty_or_enc key (nt j) t0.adminAPISecret (hten t0 ht0).2 with h | h
      · exact Or.inl h.2
      · exact Or.inr h.2
    · obtain ⟨a0, ha0, j1, j2, rfl⟩ := mem_saveApps key na d.applications 0 a2 ha2
      rcases encField_empty_or_enc key (na j1) a0.clientSecret ((happ a0 ha0).1).2 with h | h
      · exact Or.inl h.2
      · exact Or.inr h.2
    · obtain ⟨a0, ha0, j1, j2, rfl⟩ := mem_saveApps key na d.applications 0 a2 ha2
      rcases encField_empty_or_enc key (na j2) a0.signingKey ((happ a0 ha0).2).2 with h | h
      · exact Or.inl h.2
      · exact Or.inr h.2
  refine ⟨?_, h2, ?_⟩
  · have hts := mapM_decTenant_saveTenants key nt hnt d.tenants 0 hten
    have has := mapM_decApp_saveApps key na hna d.applications 0 happ
    rw [hsave, SecDoc.load]
    simp only [henc, if_true, reduceIte, hts, has]
    show Except.ok ({ encryptionEnabled := true, tenants := d.tenants, applications := d.applications } : SecDoc) = Except.ok d
    rw [← henc]
  · intro v hv hvne w hw
    rcases h2 w hw with rfl | hwenc
    · exact fun hh => hvne hh.symm
    · intro hh
      have hfalse := (hvals v hv).2
      rw [hh, hfalse] at hwenc
      exact Bool.false_ne_true hwenc

theorem secdoc_encrypted_roundtrip_witness :
    SecDoc.load (SecDoc.save okSecDoc [7] zeroNonce zeroNonce) [7] = .ok okSecDoc :=
  (secdoc_encrypted_roundtrip okSecDoc [7] zeroNonce zeroNonce (by decide) (by decide)
    (fun _ => ⟨rfl, rfl⟩) (fun _ => ⟨rfl, rfl⟩)).1
